import Mathlib

/-!
Shallow embedding of the music-bingo card generator
(`make_bingo_from_csv.py`): the CSV reader's deduplication
(`read_songs`), the card allocator (`pick_card_songs`), the grid
renderer's cell lookup (`draw_card`), and the orchestration loop in
`main`.  Python's `random` module is modelled by an explicit
generator-state parameter: a sampler function consumes the state and
returns the drawn list together with the next state.  `random.sample`
raising `ValueError` (sample larger than population) and `items[idx]`
raising `IndexError` are modelled by `Option`.
-/

namespace MusicBingo

/-- A sampler models `random.sample(xs, k)` driven by generator state
`G`: it returns the drawn list and the successor state.  The source
calls it only through this interface. -/
def Sampler (α G : Type) : Type := List α → Nat → G → List α × G

/-- The contract of `random.sample(population, k)` for `k ≤ len(population)`:
it returns `k` elements of the population, drawn at distinct positions
(hence pairwise distinct whenever the population has no duplicates). -/
def ValidSampler {α G : Type} (S : Sampler α G) : Prop :=
  ∀ (xs : List α) (k : Nat) (g : G), k ≤ xs.length →
    ((S xs k g).1.length = k ∧
     (∀ x ∈ (S xs k g).1, x ∈ xs) ∧
     (xs.Nodup → (S xs k g).1.Nodup))

/-- State threaded through the generation run: the song pool, the
`used` set accumulated across cards, and the random generator state. -/
structure AllocState (α G : Type) where
  pool : List α
  used : List α
  gen : G
  deriving DecidableEq

/-- Python set insertion `used.add(s)`: insert unless already a member. -/
def insertTrack {α : Type} [DecidableEq α] (used : List α) (x : α) : List α :=
  if x ∈ used then used else x :: used

/-- The `for s in picks: used.add(s)` loop of `pick_card_songs`. -/
def addPicks {α : Type} [DecidableEq α] (used picks : List α) : List α :=
  picks.foldl insertTrack used

/-- The filter `available = [s for s in pool if (not no_repeat_across) or (s not in used)]`. -/
def availableOf {α : Type} [DecidableEq α] (noRep : Bool) (pool used : List α) :
    List α :=
  pool.filter (fun s => !noRep || !(decide (s ∈ used)))

/-- The allocator `pick_card_songs(pool, k, used, no_repeat_across)`.  Returns the
picks and the updated state, or `none` where the Python code raises
`ValueError` (the fallback `random.sample(pool, k - len(available))`
with a request larger than the pool). -/
def pick_card_songs {α G : Type} [DecidableEq α] (S : Sampler α G) (k : Nat)
    (noRep : Bool) (st : AllocState α G) :
    Option (List α × AllocState α G) :=
  let available := availableOf noRep st.pool st.used
  if k ≤ available.length then
    let r := S available k st.gen
    some (r.1, ⟨st.pool, if noRep then addPicks st.used r.1 else st.used, r.2⟩)
  else if k - available.length ≤ st.pool.length then
    let r := S st.pool (k - available.length) st.gen
    some (available ++ r.1,
      ⟨st.pool, if noRep then addPicks st.used (available ++ r.1) else st.used,
       r.2⟩)
  else
    none

/-- The per-call effective no-repeat flag computed in `main`'s loop:
`args.no_repeat_across and len(songs) >= args.allow_short`. -/
def effectiveNoRepeat {α : Type} (noRepeatArg : Bool) (songs : List α)
    (allowShort : Nat) : Bool :=
  noRepeatArg && decide (allowShort ≤ songs.length)

/-- The warning condition in `main`:
`len(songs) < 16 and args.no_repeat_across`. -/
def warningEmitted {α : Type} (noRepeatArg : Bool) (songs : List α) : Bool :=
  decide (songs.length < 16) && noRepeatArg

/-- The card-generation loop of `main`: `n` successive allocator calls,
each with the effective flag recomputed from the current pool, threading
`used` and the generator state.  `none` if any call raises. -/
def runAux {α G : Type} [DecidableEq α] (S : Sampler α G) (noRepeatArg : Bool)
    (allowShort : Nat) : Nat → AllocState α G → Option (List (List α))
  | 0, _ => some []
  | n + 1, st =>
    match pick_card_songs S 16 (effectiveNoRepeat noRepeatArg st.pool allowShort) st with
    | none => none
    | some (picks, st') =>
      Option.map (fun cs => picks :: cs) (runAux S noRepeatArg allowShort n st')

/-- One whole generation run of `main`: seeded generator state `g0`,
deduplicated `songs`, `n` requested cards, the `--no-repeat-across`
flag and the `--allow-short` threshold. -/
def runCards {α G : Type} [DecidableEq α] (S : Sampler α G) (g0 : G)
    (songs : List α) (n : Nat) (noRepeatArg : Bool) (allowShort : Nat) :
    Option (List (List α)) :=
  runAux S noRepeatArg allowShort n ⟨songs, [], g0⟩

/-! ### CSV reading (`read_songs`) -/

/-- Python `str.strip()`: drop leading and trailing whitespace.
(Char-level model; Lean's built-in `String.trim` is not kernel-reducible.) -/
def pyStrip (s : String) : String :=
  ⟨((s.data.dropWhile Char.isWhitespace).reverse.dropWhile
      Char.isWhitespace).reverse⟩

/-- Python `str.lower()` on ASCII text: lowercase every character. -/
def pyLower (s : String) : String :=
  ⟨s.data.map Char.toLower⟩

/-- One CSV row restricted to the resolved title and artist columns
(`row.get(col)` may be absent).  `(row.get(c) or "").strip()` and the
`if t and a` guard: keep the row only when both stripped fields are
non-empty. -/
def rowSong (r : Option String × Option String) : Option (String × String) :=
  let t := pyStrip (r.1.getD "")
  let a := pyStrip (r.2.getD "")
  if t ≠ "" ∧ a ≠ "" then some (t, a) else none

/-- The `songs` list accumulated by the reader loop, rows missing
either field skipped. -/
def songsOf (rows : List (Option String × Option String)) :
    List (String × String) :=
  rows.filterMap rowSong

/-- The deduplication key `(t.lower(), a.lower())`. -/
def normKey (s : String × String) : String × String :=
  (pyLower s.1, pyLower s.2)

/-- The dedup loop of `read_songs`: keep a song iff its key was not
seen, recording keys in `seen`. -/
def dedupSongs : List (String × String) → List (String × String) →
    List (String × String)
  | [], _ => []
  | s :: rest, seen =>
    if normKey s ∈ seen then dedupSongs rest seen
    else s :: dedupSongs rest (normKey s :: seen)

/-- The reader `read_songs`: row filtering followed by key-based deduplication. -/
def read_songs (rows : List (Option String × Option String)) :
    List (String × String) :=
  dedupSongs (songsOf rows) []

/-! ### Renderer (`draw_card`) -/

/-- The nested cell loop of `draw_card`, flattened over
`idx = r*4 + c` running from `i` for `m` steps: reads `items[idx]`
for each cell, `none` at the first out-of-range index
(Python `IndexError`). -/
def cellsFrom (items : List String) : Nat → Nat → Option (List String)
  | _, 0 => some []
  | i, m + 1 =>
    match items[i]? with
    | none => none
    | some lbl => Option.map (fun ls => lbl :: ls) (cellsFrom items (i + 1) m)

/-- The renderer `draw_card` restricted to its logical layout contract: the row-major
list of the 16 cell labels, `items[r*4+c]` at cell `(r, c)`. -/
def draw_card (items : List String) : Option (List String) :=
  cellsFrom items 0 16

/-! ### Concrete samplers used as witnesses -/

/-- A valid sampler that deterministically takes the first `k`
elements; generator state is untouched. -/
def takeSampler {α : Type} : Sampler α Nat := fun xs k g => (xs.take k, g)

/-- A valid sampler that takes the first `k` elements on the first
call and the last `k` elements on every later call. -/
def headTailSampler {α : Type} : Sampler α Nat := fun xs k g =>
  (if g = 0 then xs.take k else xs.drop (xs.length - k), g + 1)

/-! ### Helper lemmas about the used-set bookkeeping -/

lemma mem_insertTrack {α : Type} [DecidableEq α] (used : List α) (a x : α) :
    x ∈ insertTrack used a ↔ x ∈ used ∨ x = a := by
  unfold insertTrack
  split
  · constructor
    · exact fun h => Or.inl h
    · rintro (h | rfl)
      · exact h
      · assumption
  · simp [or_comm]

lemma mem_addPicks {α : Type} [DecidableEq α] (picks : List α) :
    ∀ (used : List α) (x : α), x ∈ addPicks used picks ↔ x ∈ used ∨ x ∈ picks := by
  induction picks with
  | nil => simp [addPicks]
  | cons a l ih =>
    intro used x
    have h1 : addPicks used (a :: l) = addPicks (insertTrack used a) l := rfl
    rw [h1, ih (insertTrack used a) x, mem_insertTrack]
    simp [or_assoc]

/-- Unfolding one allocator call: the pool is never touched and the
returned `used` is `addPicks` of the picks when enforcing, unchanged
otherwise. -/
lemma pick_used_eq {α G : Type} [DecidableEq α] (S : Sampler α G) (k : Nat)
    (noRep : Bool) (st : AllocState α G) (picks : List α)
    (st' : AllocState α G)
    (h : pick_card_songs S k noRep st = some (picks, st')) :
    st'.pool = st.pool ∧
      st'.used = (if noRep then addPicks st.used picks else st.used) := by
  cases noRep <;>
    (simp only [pick_card_songs, Bool.false_eq_true, if_false, if_true] at h ⊢
     split at h <;>
      [skip; split at h] <;>
      first
        | (rw [Option.some.injEq, Prod.mk.injEq] at h
           obtain ⟨hp, hst⟩ := h
           subst hst
           subst hp
           exact ⟨rfl, rfl⟩)
        | exact absurd h (by simp))

/-- When at least `k` tracks are available, the allocator takes the
without-replacement branch. -/
lemma pick_eq_sample {α G : Type} [DecidableEq α] (S : Sampler α G) (k : Nat)
    (noRep : Bool) (st : AllocState α G)
    (hk : k ≤ (availableOf noRep st.pool st.used).length) :
    pick_card_songs S k noRep st =
      some ((S (availableOf noRep st.pool st.used) k st.gen).1,
        ⟨st.pool,
         if noRep then
           addPicks st.used (S (availableOf noRep st.pool st.used) k st.gen).1
         else st.used,
         (S (availableOf noRep st.pool st.used) k st.gen).2⟩) := by
  simp only [pick_card_songs]
  rw [if_pos hk]

/-- When fewer than `k` tracks are available but the fallback draw fits
in the pool, the allocator returns all of `available` plus a draw from
the whole pool. -/
lemma pick_eq_fallback {α G : Type} [DecidableEq α] (S : Sampler α G) (k : Nat)
    (noRep : Bool) (st : AllocState α G)
    (hk : ¬ k ≤ (availableOf noRep st.pool st.used).length)
    (hk2 : k - (availableOf noRep st.pool st.used).length ≤ st.pool.length) :
    pick_card_songs S k noRep st =
      some (availableOf noRep st.pool st.used ++
              (S st.pool (k - (availableOf noRep st.pool st.used).length) st.gen).1,
        ⟨st.pool,
         if noRep then
           addPicks st.used
             (availableOf noRep st.pool st.used ++
               (S st.pool (k - (availableOf noRep st.pool st.used).length) st.gen).1)
         else st.used,
         (S st.pool (k - (availableOf noRep st.pool st.used).length) st.gen).2⟩) := by
  simp only [pick_card_songs]
  rw [if_neg hk, if_pos hk2]

/-- When even the fallback draw does not fit in the pool, the allocator
raises (`random.sample` with a request larger than the population). -/
lemma pick_eq_none {α G : Type} [DecidableEq α] (S : Sampler α G) (k : Nat)
    (noRep : Bool) (st : AllocState α G)
    (hk : ¬ k ≤ (availableOf noRep st.pool st.used).length)
    (hk2 : ¬ k - (availableOf noRep st.pool st.used).length ≤ st.pool.length) :
    pick_card_songs S k noRep st = none := by
  simp only [pick_card_songs]
  rw [if_neg hk, if_neg hk2]

lemma takeSampler_valid {α : Type} : ValidSampler (takeSampler (α := α)) := by
  intro xs k g hk
  refine ⟨?_, ?_, ?_⟩
  · simp [takeSampler, Nat.min_eq_left hk]
  · intro x hx
    exact (List.take_sublist k xs).subset hx
  · intro h
    exact (List.take_sublist k xs).nodup h

lemma headTailSampler_valid {α : Type} : ValidSampler (headTailSampler (α := α)) := by
  intro xs k g hk
  unfold headTailSampler
  by_cases hg : g = 0
  · rw [if_pos hg]
    refine ⟨by simp [Nat.min_eq_left hk], ?_, ?_⟩
    · intro x hx
      exact (List.take_sublist k xs).subset hx
    · intro h
      exact (List.take_sublist k xs).nodup h
  · rw [if_neg hg]
    refine ⟨by simp; omega, ?_, ?_⟩
    · intro x hx
      exact (List.drop_sublist _ xs).subset hx
    · intro h
      exact (List.drop_sublist _ xs).nodup h

/-- Removing the members of `picks` from a duplicate-free list shortens
it by at most `picks.length`. -/
lemma length_le_filter_not_mem {α : Type} [DecidableEq α] (A picks : List α)
    (hA : A.Nodup) :
    A.length ≤ (A.filter (fun s => !decide (s ∈ picks))).length + picks.length := by
  have h1 := List.length_eq_length_filter_add (l := A)
    (fun s => decide (s ∈ picks))
  have h2 : (A.filter (fun s => decide (s ∈ picks))).length ≤ picks.length := by
    have hnd : (A.filter (fun s => decide (s ∈ picks))).Nodup := hA.filter _
    have hsub : (A.filter (fun s => decide (s ∈ picks))).toFinset ⊆
        picks.toFinset := by
      intro x hx
      rw [List.mem_toFinset] at hx ⊢
      have := List.mem_filter.1 hx
      simpa using this.2
    calc (A.filter (fun s => decide (s ∈ picks))).length
        = (A.filter (fun s => decide (s ∈ picks))).toFinset.card :=
          (List.toFinset_card_of_nodup hnd).symm
      _ ≤ picks.toFinset.card := Finset.card_le_card hsub
      _ ≤ picks.length := picks.toFinset_card_le
  have h3 : (A.filter (fun s => !decide (s ∈ picks))).length =
      (A.filter ((! ·) ∘ fun s => decide (s ∈ picks))).length := rfl
  omega

/-! ### Claim theorems -/

/-- A five-track pool, as in the spec's short-pool scenario. -/
def pool5 : List (String × String) :=
  [("a", "w"), ("b", "w"), ("c", "w"), ("d", "w"), ("e", "w")]

/-- A three-track (non-empty) pool. -/
def pool3 : List (String × String) :=
  [("a", "w"), ("b", "w"), ("c", "w")]

/-- C1: the spec says a 5-track pool with `k = 16` yields a full
16-entry card (the 5 unique tracks plus 11 with-replacement draws).
The code instead calls `random.sample(pool, 11)` on a 5-element pool,
which raises `ValueError`: the allocator call, and the whole
single-card run, fail (`none`) for every sampler and generator state. -/
theorem C1_pool5_run_raises {G : Type} (S : Sampler (String × String) G) (g : G) :
    pick_card_songs S 16 false ⟨pool5, [], g⟩ = none ∧
      runCards S g pool5 1 true 16 = none :=
  ⟨rfl, rfl⟩

/-- C2: the spec says the allocator fails only on an empty pool.  On an
empty pool it does fail, but it also fails on the non-empty 3-track
pool (`random.sample(pool, 13)` with 13 > 3 raises `ValueError`), so
"does not fail merely because the pool is smaller than k" is violated
by the code. -/
theorem C2_empty_and_small_pool {G : Type} (S : Sampler (String × String) G)
    (g : G) :
    pick_card_songs S 16 false ⟨[], [], g⟩ = none ∧
      pick_card_songs S 16 false ⟨pool3, [], g⟩ = none ∧
      pool3 ≠ [] :=
  ⟨rfl, rfl, by simp [pool3]⟩

/-- C4 counterexample: with threshold `--allow-short 20` and an
18-track pool, requesting no-repeat forces the mode off (18 < 20) yet
the warning does not fire (its condition is the hardcoded 18 < 16), so
forcing-off and the warning do not occur together for every threshold
value. -/
theorem C4_threshold20_no_warning :
    effectiveNoRepeat true (List.range 18) 20 = false ∧
      warningEmitted true (List.range 18) = false := by
  constructor <;> rfl

/-- C4 (amended): with the default threshold 16, a pool below 16 tracks
forces the no-repeat mode off and fires the warning together; the
warning condition is hardcoded at 16 rather than at the configured
threshold. -/
theorem C4_default_threshold {α : Type} (songs : List α) (nra : Bool)
    (h1 : songs.length < 16) (h2 : nra = true) :
    effectiveNoRepeat nra songs 16 = false ∧
      warningEmitted nra songs = true := by
  subst h2
  constructor <;> simp [effectiveNoRepeat, warningEmitted] <;> omega

/-- Witness for `C4_default_threshold` at a concrete 5-track pool. -/
theorem C4_default_threshold_w :
    effectiveNoRepeat true (List.range 5) 16 = false ∧
      warningEmitted true (List.range 5) = true :=
  C4_default_threshold (List.range 5) true (by decide) rfl

/-- C8: one run is a deterministic function of the seeded generator
state and the inputs — two runs with the same sampler, seed state,
pool, card count, flag and threshold produce identical card
sequences. -/
theorem C8_deterministic {α G : Type} [DecidableEq α] (S : Sampler α G)
    (g1 g2 : G) (p1 p2 : List α) (n1 n2 : Nat) (r1 r2 : Bool) (a1 a2 : Nat)
    (hg : g1 = g2) (hp : p1 = p2) (hn : n1 = n2) (hr : r1 = r2)
    (ha : a1 = a2) :
    runCards S g1 p1 n1 r1 a1 = runCards S g2 p2 n2 r2 a2 := by
  subst hg; subst hp; subst hn; subst hr; subst ha; rfl

/-- Witness for `C8_deterministic` at a concrete input. -/
theorem C8_deterministic_w :
    runCards (takeSampler (α := Nat)) 0 (List.range 16) 2 true 16 =
      runCards (takeSampler (α := Nat)) 0 (List.range 16) 2 true 16 :=
  C8_deterministic takeSampler 0 0 (List.range 16) (List.range 16) 2 2
    true true 16 16 rfl rfl rfl rfl rfl

/-- C9: a successful allocator call never changes the pool; it leaves
`used` unchanged when not enforcing, and when enforcing the new `used`
holds exactly the old members plus the tracks picked in this call. -/
theorem C9_frame {α G : Type} [DecidableEq α] (S : Sampler α G) (k : Nat)
    (noRep : Bool) (st : AllocState α G) (picks : List α)
    (st' : AllocState α G)
    (h : pick_card_songs S k noRep st = some (picks, st')) :
    st'.pool = st.pool ∧
    (noRep = false → st'.used = st.used) ∧
    (noRep = true → ∀ x, x ∈ st'.used ↔ x ∈ st.used ∨ x ∈ picks) := by
  obtain ⟨hp, hu⟩ := pick_used_eq S k noRep st picks st' h
  refine ⟨hp, ?_, ?_⟩
  · rintro rfl
    simpa using hu
  · rintro rfl x
    rw [hu]
    simp [mem_addPicks]

/-- Witness for `C9_frame`: a concrete two-track call in enforcing
mode. -/
theorem C9_frame_w :
    (⟨[1, 2], [2, 1], 0⟩ : AllocState Nat Nat).pool =
        (⟨[1, 2], [], 0⟩ : AllocState Nat Nat).pool ∧
      (true = false → (⟨[1, 2], [2, 1], 0⟩ : AllocState Nat Nat).used =
        (⟨[1, 2], [], 0⟩ : AllocState Nat Nat).used) ∧
      (true = true → ∀ x, x ∈ (⟨[1, 2], [2, 1], 0⟩ : AllocState Nat Nat).used ↔
        x ∈ (⟨[1, 2], [], 0⟩ : AllocState Nat Nat).used ∨ x ∈ [1, 2]) :=
  C9_frame takeSampler 2 true ⟨[1, 2], [], 0⟩ [1, 2] ⟨[1, 2], [2, 1], 0⟩ (by decide)

lemma availableOf_false {α : Type} [DecidableEq α] (pool used : List α) :
    availableOf false pool used = pool := by
  unfold availableOf
  simp

lemma availableOf_nil_used {α : Type} [DecidableEq α] (noRep : Bool)
    (pool : List α) : availableOf noRep pool [] = pool := by
  unfold availableOf
  simp

/-- C3 (amended): every successful allocator call on a duplicate-free
pool returns exactly 16 tracks, and in every mode the picks are
pairwise distinct whenever the call takes the without-replacement
branch (at least 16 tracks available) — so entries may repeat within a
card only when the fallback branch is taken.  With no-repeat off the
fallback is taken only if the pool has fewer than 16 unique tracks;
with no-repeat on the fallback can repeat a track even when the pool
has 16 or more — see the counterexample. -/
theorem C3_card_size {α G : Type} [DecidableEq α] (S : Sampler α G)
    (hS : ValidSampler S) (noRep : Bool) (st : AllocState α G)
    (picks : List α) (st' : AllocState α G)
    (h : pick_card_songs S 16 noRep st = some (picks, st'))
    (hnd : st.pool.Nodup) :
    picks.length = 16 ∧
      (16 ≤ (availableOf noRep st.pool st.used).length → picks.Nodup) ∧
      (noRep = false → 16 ≤ st.pool.length → picks.Nodup) := by
  by_cases h1 : 16 ≤ (availableOf noRep st.pool st.used).length
  · rw [pick_eq_sample S 16 noRep st h1, Option.some.injEq, Prod.mk.injEq] at h
    obtain ⟨hp, -⟩ := h
    obtain ⟨hl, hmem, hnodup⟩ := hS (availableOf noRep st.pool st.used) 16 st.gen h1
    subst hp
    have hpicksnd : (S (availableOf noRep st.pool st.used) 16 st.gen).1.Nodup :=
      hnodup (hnd.filter _)
    exact ⟨hl, fun _ => hpicksnd, fun _ _ => hpicksnd⟩
  · by_cases h2 : 16 - (availableOf noRep st.pool st.used).length ≤ st.pool.length
    · rw [pick_eq_fallback S 16 noRep st h1 h2, Option.some.injEq,
        Prod.mk.injEq] at h
      obtain ⟨hp, -⟩ := h
      obtain ⟨hl, -, -⟩ :=
        hS st.pool (16 - (availableOf noRep st.pool st.used).length) st.gen h2
      subst hp
      refine ⟨?_, ?_, ?_⟩
      · rw [List.length_append, hl]
        omega
      · intro hge
        exact absurd hge h1
      · rintro rfl hlen
        rw [availableOf_false] at h1
        exact absurd hlen h1
    · rw [pick_eq_none S 16 noRep st h1 h2] at h
      exact absurd h (by simp)

/-- Witness for `C3_card_size`: the first call of an enforcing run on
16 tracks, taking the without-replacement branch. -/
theorem C3_card_size_w :
    (List.range 16).length = 16 ∧
      (16 ≤ (availableOf true (List.range 16) ([] : List Nat)).length →
        (List.range 16).Nodup) ∧
      (true = false → 16 ≤ (List.range 16).length → (List.range 16).Nodup) :=
  C3_card_size takeSampler takeSampler_valid true ⟨List.range 16, [], 0⟩
    (List.range 16) ⟨List.range 16, addPicks [] (List.range 16), 0⟩
    (by decide) (by decide)

/-- C3 counterexample: a valid sampler under which an enforcing run on
a duplicate-free 20-track pool (≥ 16 unique tracks) produces a second
card with repeated entries: the fallback draw from the full pool can
re-pick the tracks already taken from `available`. -/
theorem C3_cex_pool20_repeat :
    ValidSampler (headTailSampler (α := Nat)) ∧
      (List.range 20).Nodup ∧ 16 ≤ (List.range 20).length ∧
      runCards (headTailSampler (α := Nat)) 0 (List.range 20) 2 true 16 =
        some [[0, 1, 2, 3, 4, 5, 6, 7, 8, 9, 10, 11, 12, 13, 14, 15],
              [16, 17, 18, 19, 8, 9, 10, 11, 12, 13, 14, 15, 16, 17, 18, 19]] ∧
      ¬ ([16, 17, 18, 19, 8, 9, 10, 11, 12, 13, 14, 15, 16, 17, 18, 19] :
          List Nat).Nodup :=
  ⟨headTailSampler_valid, by decide, by decide, by decide, by decide⟩

/-! ### Renderer lemmas -/

lemma cellsFrom_eq_some (items : List String) :
    ∀ (m i : Nat), i + m ≤ items.length →
      cellsFrom items i m = some ((items.drop i).take m) := by
  intro m
  induction m with
  | zero =>
    intro i h
    simp [cellsFrom]
  | succ m ih =>
    intro i h
    have hi : i < items.length := by omega
    rw [cellsFrom, List.getElem?_eq_getElem hi, ih (i + 1) (by omega)]
    rw [List.drop_eq_getElem_cons hi]
    rfl

lemma cellsFrom_eq_none (items : List String) :
    ∀ (m i : Nat), 0 < m → items.length < i + m → cellsFrom items i m = none := by
  intro m
  induction m with
  | zero =>
    intro i h0
    exact absurd h0 (by omega)
  | succ m ih =>
    intro i _ hlen
    by_cases hi : i < items.length
    · have hm : 0 < m := by omega
      rw [cellsFrom, List.getElem?_eq_getElem hi, ih (i + 1) hm (by omega)]
      rfl
    · rw [cellsFrom, List.getElem?_eq_none (by omega)]

/-- C6 (amended): the renderer fails exactly on cards with fewer than
16 entries; any card with 16 or more entries renders, the cell at
`(r, c)` holding entry `r*4 + c` (entries past the 16th are silently
ignored rather than rejected). -/
theorem C6_draw_card :
    (∀ items : List String, draw_card items = none ↔ items.length < 16) ∧
      (∀ (items g : List String), draw_card items = some g →
        ∀ r c : Nat, r < 4 → c < 4 → g[r * 4 + c]? = items[r * 4 + c]?) := by
  constructor
  · intro items
    constructor
    · intro h
      by_contra hlen
      rw [draw_card, cellsFrom_eq_some items 16 0 (by omega)] at h
      exact absurd h (by simp)
    · intro h
      exact cellsFrom_eq_none items 16 0 (by omega) (by omega)
  · intro items g hg r c hr hc
    have hlen : ¬ items.length < 16 := by
      intro hl
      rw [draw_card, cellsFrom_eq_none items 16 0 (by omega) (by omega)] at hg
      exact absurd hg (by simp)
    rw [draw_card, cellsFrom_eq_some items 16 0 (by omega),
      Option.some.injEq] at hg
    subst hg
    have hidx : r * 4 + c < 16 := by omega
    rw [List.drop_zero, List.getElem?_take_of_lt hidx]

/-- Witness for `C6_draw_card`: a 17-entry card renders, cell (1,2)
holding entry 6. -/
theorem C6_draw_card_w :
    ((List.replicate 17 "x").take 16)[1 * 4 + 2]? =
      (List.replicate 17 "x")[1 * 4 + 2]? :=
  C6_draw_card.2 (List.replicate 17 "x") ((List.replicate 17 "x").take 16)
    (by rfl) 1 2 (by omega) (by omega)

/-- C6 counterexample: a card with 17 entries is not rejected — the
renderer succeeds, reading only the first 16 entries. -/
theorem C6_cex_card17 :
    draw_card (List.replicate 17 "x") ≠ none ∧
      (List.replicate 17 "x").length ≠ 16 := by
  constructor
  · intro h
    exact absurd h (by rw [draw_card, cellsFrom_eq_some _ 16 0 (by simp)]; simp)
  · simp

/-! ### Run-level lemmas -/

lemma availableOf_true_addPicks {α : Type} [DecidableEq α]
    (pool used picks : List α) :
    availableOf true pool (addPicks used picks) =
      (availableOf true pool used).filter (fun s => !decide (s ∈ picks)) := by
  unfold availableOf
  rw [List.filter_filter]
  apply List.filter_congr
  intro x _
  by_cases h1 : x ∈ used <;> by_cases h2 : x ∈ picks <;>
    simp [mem_addPicks, h1, h2]

/-- One successful step of the generation loop. -/
lemma runAux_succ {α G : Type} [DecidableEq α] (S : Sampler α G) (nra : Bool)
    (aS n : Nat) (st : AllocState α G) (picks : List α)
    (st' : AllocState α G)
    (h : pick_card_songs S 16 (effectiveNoRepeat nra st.pool aS) st =
      some (picks, st')) :
    runAux S nra aS (n + 1) st =
      Option.map (fun cs => picks :: cs) (runAux S nra aS n st') := by
  simp only [runAux]
  rw [h]

/-- The enforcing run: as long as at least `16·n` never-used tracks
remain, `n` more cards are produced, each of 16 pairwise-distinct
tracks drawn from the pool outside `used`, and pairwise disjoint. -/
lemma runAux_enforce {α G : Type} [DecidableEq α] (S : Sampler α G)
    (hS : ValidSampler S) :
    ∀ (n : Nat) (st : AllocState α G), st.pool.Nodup →
      16 * n ≤ (availableOf true st.pool st.used).length →
      ∃ cards, runAux S true 16 n st = some cards ∧
        cards.length = n ∧
        (∀ c ∈ cards, c.length = 16 ∧ c.Nodup ∧
          ∀ x ∈ c, x ∈ st.pool ∧ x ∉ st.used) ∧
        List.Pairwise List.Disjoint cards := by
  intro n
  induction n with
  | zero =>
    intro st _ _
    exact ⟨[], rfl, rfl, by simp, by simp⟩
  | succ n ih =>
    intro st hnd hlen
    have hA_nodup : (availableOf true st.pool st.used).Nodup := hnd.filter _
    have h16 : 16 ≤ (availableOf true st.pool st.used).length := by omega
    have hApool : (availableOf true st.pool st.used).length ≤ st.pool.length :=
      List.length_filter_le _ _
    have hflag : effectiveNoRepeat true st.pool 16 = true := by
      simp only [effectiveNoRepeat, Bool.true_and, decide_eq_true_eq]
      omega
    obtain ⟨hl, hmem, hnodup⟩ := hS (availableOf true st.pool st.used) 16 st.gen h16
    have hpick := pick_eq_sample S 16 true st h16
    rw [if_pos rfl] at hpick
    have hmem_pool : ∀ x ∈ (S (availableOf true st.pool st.used) 16 st.gen).1,
        x ∈ st.pool ∧ x ∉ st.used := by
      intro x hx
      have := List.mem_filter.1 (hmem x hx)
      refine ⟨this.1, ?_⟩
      have hb := this.2
      simp only [Bool.not_true, Bool.false_or, Bool.not_eq_true',
        decide_eq_false_iff_not] at hb
      exact hb
    have hlen' : 16 * n ≤
        (availableOf true st.pool
          (addPicks st.used (S (availableOf true st.pool st.used) 16 st.gen).1)).length := by
      rw [availableOf_true_addPicks]
      have hcount := length_le_filter_not_mem (availableOf true st.pool st.used)
        (S (availableOf true st.pool st.used) 16 st.gen).1 hA_nodup
      omega
    obtain ⟨cards, hrun, hclen, hcprops, hpair⟩ :=
      ih ⟨st.pool,
          addPicks st.used (S (availableOf true st.pool st.used) 16 st.gen).1,
          (S (availableOf true st.pool st.used) 16 st.gen).2⟩ hnd hlen'
    refine ⟨(S (availableOf true st.pool st.used) 16 st.gen).1 :: cards, ?_, ?_, ?_, ?_⟩
    · rw [runAux_succ S true 16 n st _ _ (by rw [hflag]; exact hpick), hrun]
      rfl
    · simp [hclen]
    · intro c hc
      rcases List.mem_cons.1 hc with rfl | hc'
      · exact ⟨hl, hnodup hA_nodup, hmem_pool⟩
      · obtain ⟨hc1, hc2, hc3⟩ := hcprops c hc'
        refine ⟨hc1, hc2, ?_⟩
        intro x hx
        obtain ⟨hxp, hxu⟩ := hc3 x hx
        refine ⟨hxp, ?_⟩
        intro hxused
        exact hxu ((mem_addPicks _ _ _).2 (Or.inl hxused))
    · refine List.Pairwise.cons ?_ hpair
      intro c hc a ha hac
      obtain ⟨-, -, hc3⟩ := hcprops c hc
      exact (hc3 a hac).2 ((mem_addPicks _ _ _).2 (Or.inr ha))

/-- C5: for an enforcing run with the default threshold over a
duplicate-free pool of at least `16·n` tracks, all `n` cards are
produced, each with 16 pairwise-distinct tracks, and no track appears
on two different cards. -/
theorem C5_no_repeat_across {α G : Type} [DecidableEq α] (S : Sampler α G)
    (hS : ValidSampler S) (g0 : G) (pool : List α) (n : Nat)
    (hnd : pool.Nodup) (hlen : 16 * n ≤ pool.length) :
    ∃ cards, runCards S g0 pool n true 16 = some cards ∧
      cards.length = n ∧ (∀ c ∈ cards, c.length = 16 ∧ c.Nodup) ∧
      List.Pairwise List.Disjoint cards := by
  obtain ⟨cards, h1, h2, h3, h4⟩ := runAux_enforce S hS n ⟨pool, [], g0⟩ hnd
    (by rw [availableOf_nil_used]; exact hlen)
  exact ⟨cards, h1, h2, fun c hc => ⟨(h3 c hc).1, (h3 c hc).2.1⟩, h4⟩

/-- Witness for `C5_no_repeat_across`: 32 tracks, two cards. -/
theorem C5_no_repeat_across_w :
    ∃ cards, runCards (takeSampler (α := Nat)) 0 (List.range 32) 2 true 16 =
        some cards ∧
      cards.length = 2 ∧ (∀ c ∈ cards, c.length = 16 ∧ c.Nodup) ∧
      List.Pairwise List.Disjoint cards :=
  C5_no_repeat_across takeSampler takeSampler_valid 0 (List.range 32) 2
    (by decide) (by decide)

/-- The non-enforcing run: with a pool of at least 16 tracks every card
is a 16-element draw from the pool. -/
lemma runAux_noenforce {α G : Type} [DecidableEq α] (S : Sampler α G)
    (hS : ValidSampler S) (aS : Nat) :
    ∀ (n : Nat) (st : AllocState α G), 16 ≤ st.pool.length →
      ∃ cards, runAux S false aS n st = some cards ∧ cards.length = n ∧
        ∀ c ∈ cards, c.length = 16 ∧ ∀ x ∈ c, x ∈ st.pool := by
  intro n
  induction n with
  | zero =>
    intro st _
    exact ⟨[], rfl, rfl, by simp⟩
  | succ n ih =>
    intro st hlen
    have hAv : availableOf false st.pool st.used = st.pool :=
      availableOf_false _ _
    have h16 : 16 ≤ (availableOf false st.pool st.used).length := by
      rw [hAv]; exact hlen
    obtain ⟨hl, hmem, -⟩ := hS (availableOf false st.pool st.used) 16 st.gen h16
    have hpick := pick_eq_sample S 16 false st h16
    rw [if_neg (by simp)] at hpick
    obtain ⟨cards, hrun, hclen, hprops⟩ :=
      ih ⟨st.pool, st.used, (S (availableOf false st.pool st.used) 16 st.gen).2⟩
        hlen
    refine ⟨(S (availableOf false st.pool st.used) 16 st.gen).1 :: cards, ?_, ?_, ?_⟩
    · rw [runAux_succ S false aS n st _ _ (by exact hpick), hrun]
      rfl
    · simp [hclen]
    · intro c hc
      rcases List.mem_cons.1 hc with rfl | hc'
      · refine ⟨hl, ?_⟩
        intro x hx
        have := hmem x hx
        rw [hAv] at this
        exact this
      · exact hprops c hc'

/-- C7: with no-repeat off and a pool of at least 16 tracks, every run
produces all its cards, each card having exactly 16 entries drawn from
the pool. -/
theorem C7_cards_from_pool {α G : Type} [DecidableEq α] (S : Sampler α G)
    (hS : ValidSampler S) (g0 : G) (pool : List α) (n aS : Nat)
    (hlen : 16 ≤ pool.length) :
    ∃ cards, runCards S g0 pool n false aS = some cards ∧
      cards.length = n ∧ ∀ c ∈ cards, c.length = 16 ∧ ∀ x ∈ c, x ∈ pool :=
  runAux_noenforce S hS aS n ⟨pool, [], g0⟩ hlen

/-- Witness for `C7_cards_from_pool`: 16 tracks, three cards. -/
theorem C7_cards_from_pool_w :
    ∃ cards, runCards (takeSampler (α := Nat)) 0 (List.range 16) 3 false 16 =
        some cards ∧
      cards.length = 3 ∧ ∀ c ∈ cards, c.length = 16 ∧ ∀ x ∈ c, x ∈ List.range 16 :=
  C7_cards_from_pool takeSampler takeSampler_valid 0 (List.range 16) 3 16
    (by decide)

/-! ### Reader lemmas -/

lemma dedupSongs_sublist :
    ∀ (l seen : List (String × String)), (dedupSongs l seen).Sublist l := by
  intro l
  induction l with
  | nil => intro seen; simp [dedupSongs]
  | cons s rest ih =>
    intro seen
    rw [dedupSongs]
    split
    · exact (ih seen).trans (List.sublist_cons_self s rest)
    · exact (ih (normKey s :: seen)).cons₂ s

lemma dedupSongs_key_not_seen :
    ∀ (l seen : List (String × String)) (x : String × String),
      x ∈ dedupSongs l seen → normKey x ∉ seen := by
  intro l
  induction l with
  | nil => intro seen x hx; simp [dedupSongs] at hx
  | cons s rest ih =>
    intro seen x hx
    rw [dedupSongs] at hx
    split at hx
    · exact ih seen x hx
    · rcases List.mem_cons.1 hx with rfl | hx'
      · assumption
      · intro hmem
        exact ih _ x hx' (List.mem_cons_of_mem _ hmem)

lemma dedupSongs_keys_nodup :
    ∀ (l seen : List (String × String)),
      ((dedupSongs l seen).map normKey).Nodup := by
  intro l
  induction l with
  | nil => intro seen; simp [dedupSongs]
  | cons s rest ih =>
    intro seen
    rw [dedupSongs]
    split
    · exact ih seen
    · rw [List.map_cons, List.nodup_cons]
      refine ⟨?_, ih (normKey s :: seen)⟩
      intro hmem
      obtain ⟨y, hy, hkey⟩ := List.mem_map.1 hmem
      exact dedupSongs_key_not_seen rest _ y hy (by rw [hkey]; exact List.mem_cons_self _ _)

lemma dedupSongs_covers :
    ∀ (l seen : List (String × String)) (s : String × String), s ∈ l →
      normKey s ∈ seen ∨ normKey s ∈ (dedupSongs l seen).map normKey := by
  intro l
  induction l with
  | nil => intro seen s hs; simp at hs
  | cons a rest ih =>
    intro seen s hs
    rw [dedupSongs]
    rcases List.mem_cons.1 hs with rfl | hs'
    · split
      · exact Or.inl (by assumption)
      · exact Or.inr (by rw [List.map_cons]; exact List.mem_cons_self _ _)
    · split
      · exact ih seen s hs'
      · rcases ih (normKey a :: seen) s hs' with hseen | hmem
        · rcases List.mem_cons.1 hseen with heq | hseen'
          · exact Or.inr (by rw [List.map_cons, heq]; exact List.mem_cons_self _ _)
          · exact Or.inl hseen'
        · exact Or.inr (by rw [List.map_cons]; exact List.mem_cons_of_mem _ hmem)

lemma dedupSongs_first :
    ∀ (l seen : List (String × String)) (x : String × String),
      x ∈ dedupSongs l seen →
      ∃ l1 l2, l = l1 ++ x :: l2 ∧
        ∀ y ∈ l1, normKey y ∈ seen ∨ normKey y ≠ normKey x := by
  intro l
  induction l with
  | nil => intro seen x hx; simp [dedupSongs] at hx
  | cons a rest ih =>
    intro seen x hx
    rw [dedupSongs] at hx
    split at hx
    · obtain ⟨l1, l2, hsplit, hprev⟩ := ih seen x hx
      refine ⟨a :: l1, l2, by rw [hsplit]; rfl, ?_⟩
      intro y hy
      rcases List.mem_cons.1 hy with rfl | hy'
      · exact Or.inl (by assumption)
      · exact hprev y hy'
    · rcases List.mem_cons.1 hx with rfl | hx'
      · exact ⟨[], rest, rfl, by simp⟩
      · obtain ⟨l1, l2, hsplit, hprev⟩ := ih (normKey a :: seen) x hx'
        have hxkey : normKey x ∉ normKey a :: seen :=
          dedupSongs_key_not_seen rest _ x hx'
        refine ⟨a :: l1, l2, by rw [hsplit]; rfl, ?_⟩
        intro y hy
        rcases List.mem_cons.1 hy with rfl | hy'
        · refine Or.inr ?_
          intro heq
          exact hxkey (by rw [← heq]; exact List.mem_cons_self _ _)
        · rcases hprev y hy' with hseen | hne
          · rcases List.mem_cons.1 hseen with heq | hseen'
            · refine Or.inr ?_
              intro hxy
              exact hxkey (by rw [← hxy, ← heq]; exact List.mem_cons_self _ _)
            · exact Or.inl hseen'
          · exact Or.inr hne

/-- C10: the pool built by the reader has exactly one entry per
normalized `(lowercase title, lowercase artist)` key — every surviving
row's key is represented, and represented once; pool entries appear in
source row order and each is the first surviving row bearing its key;
rows missing (or blank in) either field contribute nothing. -/
theorem C10_read_songs :
    (∀ rows, ((read_songs rows).map normKey).Nodup) ∧
      (∀ rows, ∀ s ∈ songsOf rows,
        normKey s ∈ (read_songs rows).map normKey) ∧
      (∀ rows, (read_songs rows).Sublist (songsOf rows)) ∧
      (∀ rows, ∀ x ∈ read_songs rows,
        ∃ l1 l2, songsOf rows = l1 ++ x :: l2 ∧
          ∀ y ∈ l1, normKey y ≠ normKey x) ∧
      (∀ (pre : List (Option String × Option String)) (row) (post),
        rowSong row = none →
        read_songs (pre ++ row :: post) = read_songs (pre ++ post)) := by
  refine ⟨?_, ?_, ?_, ?_, ?_⟩
  · intro rows
    exact dedupSongs_keys_nodup (songsOf rows) []
  · intro rows s hs
    rcases dedupSongs_covers (songsOf rows) [] s hs with hseen | hmem
    · simp at hseen
    · exact hmem
  · intro rows
    exact dedupSongs_sublist (songsOf rows) []
  · intro rows x hx
    obtain ⟨l1, l2, hsplit, hprev⟩ := dedupSongs_first (songsOf rows) [] x hx
    refine ⟨l1, l2, hsplit, ?_⟩
    intro y hy
    rcases hprev y hy with hseen | hne
    · simp at hseen
    · exact hne
  · intro pre row post hrow
    unfold read_songs songsOf
    rw [List.filterMap_append, List.filterMap_append, List.filterMap_cons, hrow]

/-- Witness for `C10_read_songs`: case-insensitive duplicate collapse
and a skipped row with a missing title. -/
theorem C10_read_songs_w :
    normKey ("a", "X") ∈
        (read_songs [(some "A", some "x"), (some "a", some "X")]).map normKey ∧
      read_songs [(some "A", some "x"), (none, some "y")] =
        read_songs [(some "A", some "x")] :=
  ⟨C10_read_songs.2.1 [(some "A", some "x"), (some "a", some "X")]
      ("a", "X") (by decide),
   C10_read_songs.2.2.2.2 [(some "A", some "x")] (none, some "y") []
      (by decide)⟩

end MusicBingo
